import Mathlib

/-!
Verification development for the Agent Studio workflow client.

The definitions below are shallow embeddings of the TypeScript source of the
desktop client (graph editor, trace viewers, diff utility, undo/redo hook)
and, where the backend implementation is not part of the available sources,
models written from the system specification (each such definition is marked
`Modelled from the spec:`).
-/

set_option autoImplicit false

namespace AgentStudio

/-! ## Line diff (`diffLines`, lib/diff.ts)

The TypeScript computes an LCS table `dp` with `dp[i][j]` equal to the length
of the longest common subsequence of `a[i..]` and `b[j..]`, then walks the
table emitting `same`/`del`/`add` entries.  `lcsLen` is the table entry and
`diffLines` is the walk, written recursively: the walk's loop condition
`i < n && j < m` corresponds to the two cons cases, and the two drain loops
after it are the base cases. -/

inductive DiffKind where
  | same
  | add
  | del
deriving DecidableEq, Repr

structure DiffLine where
  kind : DiffKind
  text : String
deriving DecidableEq, Repr

/-- `lcsLen a b` is `dp[i][j]` of lib/diff.ts for `a = a₀[i..]`, `b = b₀[j..]`:
the longest-common-subsequence length. -/
def lcsLen (a b : List String) : Nat :=
  match a, b with
  | [], _ => 0
  | _ :: _, [] => 0
  | x :: xs, y :: ys =>
    if x = y then lcsLen xs ys + 1
    else max (lcsLen xs (y :: ys)) (lcsLen (x :: xs) ys)
termination_by a.length + b.length
decreasing_by
  all_goals simp_wf
  all_goals omega

/-- The table walk of lib/diff.ts `diffLines`.  While both lists are nonempty:
equal heads emit `same`; otherwise `dp[i+1][j] >= dp[i][j+1]` emits `del`,
else `add`.  Once one list is exhausted the remainder of the other is drained
as `del` (old lines) or `add` (new lines). -/
def diffLines (a b : List String) : List DiffLine :=
  match a, b with
  | [], rest => rest.map (fun t => ⟨DiffKind.add, t⟩)
  | rest, [] => rest.map (fun t => ⟨DiffKind.del, t⟩)
  | x :: xs, y :: ys =>
    if x = y then ⟨DiffKind.same, x⟩ :: diffLines xs ys
    else if lcsLen xs (y :: ys) ≥ lcsLen (x :: xs) ys then
      ⟨DiffKind.del, x⟩ :: diffLines xs (y :: ys)
    else
      ⟨DiffKind.add, y⟩ :: diffLines (x :: xs) ys
termination_by a.length + b.length
decreasing_by
  all_goals simp_wf
  all_goals omega

/-- An entry of kind `same` or `del` comes from the old file. -/
def isOld (d : DiffLine) : Bool :=
  match d.kind with
  | DiffKind.same => true
  | DiffKind.del => true
  | DiffKind.add => false

/-- An entry of kind `same` or `add` belongs to the new file. -/
def isNew (d : DiffLine) : Bool :=
  match d.kind with
  | DiffKind.same => true
  | DiffKind.del => false
  | DiffKind.add => true

/-- The subsequence of diff entries of kind `same` or `del`, projected to text. -/
def oldLines (ds : List DiffLine) : List String :=
  (ds.filter isOld).map DiffLine.text

/-- The subsequence of diff entries of kind `same` or `add`, projected to text. -/
def newLines (ds : List DiffLine) : List String :=
  (ds.filter isNew).map DiffLine.text

theorem oldLines_nil : oldLines [] = [] := rfl

theorem oldLines_cons (d : DiffLine) (ds : List DiffLine) :
    oldLines (d :: ds) = if isOld d then d.text :: oldLines ds else oldLines ds := by
  by_cases h : isOld d <;> simp [oldLines, List.filter_cons, h]

theorem newLines_cons (d : DiffLine) (ds : List DiffLine) :
    newLines (d :: ds) = if isNew d then d.text :: newLines ds else newLines ds := by
  by_cases h : isNew d <;> simp [newLines, List.filter_cons, h]

theorem oldLines_map_add (b : List String) :
    oldLines (b.map (fun t => ⟨DiffKind.add, t⟩)) = [] := by
  induction b with
  | nil => rfl
  | cons y ys ih => simp [oldLines_cons, isOld, ih]

theorem oldLines_map_del (a : List String) :
    oldLines (a.map (fun t => ⟨DiffKind.del, t⟩)) = a := by
  induction a with
  | nil => rfl
  | cons x xs ih => simp [oldLines_cons, isOld, ih]

theorem newLines_map_add (b : List String) :
    newLines (b.map (fun t => ⟨DiffKind.add, t⟩)) = b := by
  induction b with
  | nil => rfl
  | cons y ys ih => simp [newLines_cons, isNew, ih]

theorem newLines_map_del (a : List String) :
    newLines (a.map (fun t => ⟨DiffKind.del, t⟩)) = [] := by
  induction a with
  | nil => rfl
  | cons x xs ih => simp [newLines_cons, isNew, ih]

/-- Claim C9: `diffLines` is a faithful line diff.  For all string lists `a`
and `b`, the subsequence of output entries with kind `same` or `del` (in
order) equals `a`, and the subsequence of entries with kind `same` or `add`
(in order) equals `b`. -/
theorem diffLines_faithful (a b : List String) :
    oldLines (diffLines a b) = a ∧ newLines (diffLines a b) = b := by
  induction a, b using diffLines.induct with
  | case1 rest =>
    simp [diffLines, oldLines_map_add, newLines_map_add]
  | case2 rest =>
    simp [diffLines, oldLines_map_del, newLines_map_del]
  | case3 x xs ys ih =>
    simp [diffLines, oldLines_cons, newLines_cons, isOld, isNew, ih]
  | case4 x xs y ys hne hge ih =>
    simp [diffLines, hne, hge, oldLines_cons, newLines_cons, isOld, isNew, ih]
  | case5 x xs y ys hne hlt ih =>
    simp [diffLines, hne, hlt, oldLines_cons, newLines_cons, isOld, isNew, ih]

/-! ## Undo/redo state hook (`useUndoRedoState`)

The hook keeps three pieces of React state — `value`, `past`, `future` — and
a `applyingHistoryRef` flag that is only set inside `undo`/`redo` themselves.
An external `setValue` therefore always runs the history branch: it pushes the
previous value on `past` and clears `future`.  `undo` reads `p[p.length - 1]`
(modelled by `List.getLast?`), drops it from `past` and prepends the current
value to `future`; `redo` symmetrically consumes the head of `future`. -/

structure UndoRedo (T : Type) where
  value : T
  past : List T
  future : List T
deriving DecidableEq

/-- `setValueWithHistory` called from outside history replay
(`applyingHistoryRef.current = false`): push previous value, clear redo. -/
def setValueHist {T : Type} (s : UndoRedo T) (updater : T → T) : UndoRedo T :=
  { value := updater s.value, past := s.past ++ [s.value], future := [] }

/-- `undo`: no-op on empty `past`, else pop the last saved value. -/
def undo {T : Type} (s : UndoRedo T) : UndoRedo T :=
  match s.past.getLast? with
  | none => s
  | some prev => { value := prev, past := s.past.dropLast, future := s.value :: s.future }

/-- `redo`: no-op on empty `future`, else consume its head. -/
def redo {T : Type} (s : UndoRedo T) : UndoRedo T :=
  match s.future with
  | [] => s
  | next :: rest => { value := next, past := s.past ++ [s.value], future := rest }

/-- Claim C10: `useUndoRedoState`'s operations are mutually inverse on the
value: after `setValue v'`, `undo` restores the previous value with `v'` as
the sole entry of the redo stack (the redo stack was cleared by `setValue`),
and a subsequent `redo` restores the post-`setValue` state exactly; `undo`
on an empty past stack and `redo` on an empty future stack change nothing;
and any external `setValue` clears the redo stack. -/
theorem useUndoRedoState_inverse (T : Type) (s : UndoRedo T) (v' v : T) (f p : List T) :
    undo (setValueHist s (fun _ => v')) = ⟨s.value, s.past, [v']⟩ ∧
    redo (undo (setValueHist s (fun _ => v'))) = setValueHist s (fun _ => v') ∧
    undo ⟨v, [], f⟩ = ⟨v, [], f⟩ ∧
    redo ⟨v, p, []⟩ = ⟨v, p, []⟩ ∧
    (setValueHist s (fun _ => v')).future = [] := by
  refine ⟨?_, ?_, ?_, ?_, ?_⟩
  · simp [setValueHist, undo]
  · simp [setValueHist, undo, redo]
  · simp [undo]
  · simp [redo]
  · rfl

/-! ## Editor graph documents (lib/types.ts, AgentEditorPage.tsx)

`AgentGraphNode` is the tagged union `input | agent | tool | loop_group |
output` of lib/types.ts.  Opaque JSON record fields (schemas, model
selectors, guardrails, metadata) are modelled as strings; optional TS fields
(`field?:`) are `Option`s.  JS `crypto.randomUUID()` is modelled by a `fresh`
string parameter: no claim depends on the generated ids being distinct. -/

structure GraphPosition where
  x : Int
  y : Int
deriving DecidableEq, Repr

inductive NodeType where
  | input
  | agent
  | tool
  | loop_group
  | output
deriving DecidableEq, Repr

inductive AgentGraphNode where
  | input (id : String) (name : Option String) (position : GraphPosition)
      (schema : Option String)
  | output (id : String) (name : Option String) (position : GraphPosition)
  | agent (id : String) (name : Option String) (position : GraphPosition)
      (instructions : Option String) (model : Option String) (tools : List String)
      (input_guardrails : List String) (output_guardrails : List String)
      (output_type : Option String) (workspace_root : Option String)
  | tool (id : String) (name : Option String) (position : GraphPosition)
      (tool_name : String) (language : Option String) (code : Option String)
      (schema : Option String) (description : Option String)
  | loop_group (id : String) (name : Option String) (position : GraphPosition)
      (condition : Option String) (max_iterations : Option Nat)
      (width : Option Nat) (height : Option Nat)
deriving DecidableEq, Repr

def AgentGraphNode.id : AgentGraphNode → String
  | .input i _ _ _ => i
  | .output i _ _ => i
  | .agent i _ _ _ _ _ _ _ _ _ => i
  | .tool i _ _ _ _ _ _ _ => i
  | .loop_group i _ _ _ _ _ _ => i

def AgentGraphNode.nodeType : AgentGraphNode → NodeType
  | .input .. => NodeType.input
  | .output .. => NodeType.output
  | .agent .. => NodeType.agent
  | .tool .. => NodeType.tool
  | .loop_group .. => NodeType.loop_group

structure GraphEdge where
  id : String
  source : String
  target : String
  label : Option String
  source_handle : Option String
  target_handle : Option String
deriving DecidableEq, Repr

structure GraphViewport where
  x : Int
  y : Int
  zoom : Int
deriving DecidableEq, Repr

structure AgentGraphDocV1 where
  schema_version : String
  nodes : List AgentGraphNode
  edges : List GraphEdge
  viewport : GraphViewport
  metadata : String
deriving DecidableEq, Repr

/-- Claim C5's invariant — spec §3: «every edge's endpoints exist». -/
def edgeEndpointsOk (g : AgentGraphDocV1) : Prop :=
  ∀ e ∈ g.edges,
    e.source ∈ g.nodes.map AgentGraphNode.id ∧ e.target ∈ g.nodes.map AgentGraphNode.id

/-! ### `migrateLegacyGraph` (AgentEditorPage.tsx)

The TS input nodes are raw `Record<string, unknown>` objects; the function
dispatches on the `type` string.  `RawNode.typed` covers the pass-through
branches (`"agent"` and `"tool" | "input" | "output" | "loop_group"`, which
cast the object unchanged), `llm`/`code_editor`/`loop` are the migrated
legacy shapes with every field optional (the TS `typeof`-checks), and
`other` is any unrecognized `type`, which the loop drops. -/

inductive RawNode where
  | typed (n : AgentGraphNode)
  | llm (id : Option String) (name : Option String) (position : Option GraphPosition)
      (system_prompt : Option String) (model : Option String)
      (tools : Option (List String)) (workspace_root : Option String)
  | code_editor (id : Option String) (name : Option String)
      (position : Option GraphPosition) (system_prompt : Option String)
      (model : Option String) (tools : Option (List String))
      (workspace_root : Option String)
  | loop (id : Option String) (name : Option String) (position : Option GraphPosition)
      (condition : Option String) (max_iterations : Option Nat)
      (width : Option Nat) (height : Option Nat)
  | other (ty : String)
deriving DecidableEq, Repr

structure RawGraphDoc where
  schema_version : String
  nodes : List RawNode
  edges : List GraphEdge
  viewport : GraphViewport
  metadata : String
deriving DecidableEq, Repr

/-- The body of `migrateLegacyGraph`'s node loop; `none` means the node is
dropped.  `fresh` stands for `crypto.randomUUID()`; `"{}"` is the empty JSON
record that `node.model ?? {}` falls back to. -/
def migrateNode (fresh : String) : RawNode → Option AgentGraphNode
  | .typed n => some n
  | .llm i nm pos sp mdl tls wr =>
      some (.agent (i.getD fresh) (some (nm.getD "Agent")) (pos.getD ⟨0, 0⟩)
        (some (sp.getD "")) (some (mdl.getD "{}")) (tls.getD []) [] [] none wr)
  | .code_editor i nm pos sp mdl tls wr =>
      some (.agent (i.getD fresh) (some (nm.getD "Code editor")) (pos.getD ⟨0, 0⟩)
        (some (sp.getD "")) (some (mdl.getD "{}")) (tls.getD []) [] [] none wr)
  | .loop i nm pos cond mi w h =>
      some (.loop_group (i.getD fresh) (some (nm.getD "Loop group")) (pos.getD ⟨0, 0⟩)
        (some (cond.getD "iteration < max_iterations")) (some (mi.getD 3))
        (some (w.getD 360)) (some (h.getD 240)))
  | .other _ => none

/-- `migrateLegacyGraph`: migrate the nodes, then keep only edges whose two
endpoints name surviving nodes. -/
def migrateLegacyGraph (fresh : String) (g : RawGraphDoc) : AgentGraphDocV1 :=
  let migratedNodes := g.nodes.filterMap (migrateNode fresh)
  let nodeIds := migratedNodes.map AgentGraphNode.id
  { schema_version := g.schema_version
    nodes := migratedNodes
    edges := g.edges.filter (fun e => nodeIds.contains e.source && nodeIds.contains e.target)
    viewport := g.viewport
    metadata := g.metadata }

/-! ### React Flow side of the editor (`onConnect`, `onNodesChange`)

`FlowNode` carries what `onConnect` reads from React Flow's node objects:
the id and `data.nodeType` (optional, hence `?.data?.nodeType`).  `addEdge`
is @xyflow/react's helper: it ignores the connection when an edge with the
same source, target and handles already exists, otherwise appends a new edge
with a generated id. -/

structure FlowNode where
  id : String
  nodeType : Option NodeType
deriving DecidableEq, Repr

structure FlowEdge where
  id : String
  source : String
  target : String
  label : Option String
  sourceHandle : Option String
  targetHandle : Option String
deriving DecidableEq, Repr

structure Connection where
  source : String
  target : String
  sourceHandle : Option String
  targetHandle : Option String
deriving DecidableEq, Repr

def addEdge (params : Connection) (edges : List FlowEdge) : List FlowEdge :=
  if edges.any (fun e =>
      e.source == params.source && e.target == params.target &&
      e.sourceHandle == params.sourceHandle && e.targetHandle == params.targetHandle) then
    edges
  else
    edges ++ [{ id := "xy-edge__" ++ params.source ++ "-" ++ params.target
                source := params.source
                target := params.target
                label := none
                sourceHandle := params.sourceHandle
                targetHandle := params.targetHandle }]

/-- `edgesFromFlow` (AgentEditorPage.tsx): flow edges back to document edges. -/
def edgesFromFlow (flowEdges : List FlowEdge) : List GraphEdge :=
  flowEdges.map (fun e =>
    { id := e.id
      source := e.source
      target := e.target
      label := e.label
      source_handle := e.sourceHandle
      target_handle := e.targetHandle })

/-- `flowNodesRef.current.find((n) => n.id === ...)?.data?.nodeType`. -/
def nodeTypeOf (flowNodes : List FlowNode) (i : String) : Option NodeType :=
  (flowNodes.find? (fun n => n.id == i)).bind FlowNode.nodeType

/-- `onConnect` (AgentEditorPage.tsx): the per-variant connection guards, then
`addEdge` plus the graph-document update which keeps only edges whose
endpoints name existing document nodes.  Returns the new flow-edge list and
the new graph document. -/
def onConnect (flowNodes : List FlowNode) (prev : List FlowEdge)
    (g : AgentGraphDocV1) (params : Connection) : List FlowEdge × AgentGraphDocV1 :=
  let sourceType := nodeTypeOf flowNodes params.source
  let targetType := nodeTypeOf flowNodes params.target
  let isAgentTarget := targetType = some NodeType.agent
  if sourceType = some NodeType.output ∨ targetType = some NodeType.input then
    (prev, g)
  else if sourceType = some NodeType.tool ∧ ¬ isAgentTarget then
    (prev, g)
  else if targetType = some NodeType.tool then
    (prev, g)
  else if sourceType = some NodeType.loop_group ∨ targetType = some NodeType.loop_group then
    (prev, g)
  else
    let nextEdges := addEdge params prev
    let nodeIds := g.nodes.map AgentGraphNode.id
    let keptEdges := (edgesFromFlow nextEdges).filter
      (fun e => nodeIds.contains e.source && nodeIds.contains e.target)
    (nextEdges, { g with edges := keptEdges })

/-- The `setGraph` update of `onNodesChange`'s remove branch, with the
surviving flow-node id set (`next.map(node => node.id)`) abstracted: keep the
document nodes whose id survives and the edges whose two endpoints survive. -/
def removeNodesGraphUpdate (surviving : List String) (g : AgentGraphDocV1) : AgentGraphDocV1 :=
  { g with
    nodes := g.nodes.filter (fun n => surviving.contains n.id)
    edges := g.edges.filter (fun e => surviving.contains e.source && surviving.contains e.target) }

theorem mem_map_id_filter {surviving : List String} {nodes : List AgentGraphNode}
    {s : String} (h1 : s ∈ nodes.map AgentGraphNode.id)
    (hs : surviving.contains s = true) :
    s ∈ (nodes.filter (fun n => surviving.contains n.id)).map AgentGraphNode.id := by
  rw [List.mem_map] at h1 ⊢
  obtain ⟨n, hn, hid⟩ := h1
  refine ⟨n, List.mem_filter.mpr ⟨hn, ?_⟩, hid⟩
  rw [hid]
  exact hs

/-- Claim C5: every graph document produced by the editor's graph-mutating
operations satisfies the edge-endpoint invariant.  `migrateLegacyGraph`
establishes it outright; `onConnect` and the remove branch of `onNodesChange`
preserve it (their guard paths return the incoming document unchanged, so
preservation is the strongest true form there). -/
theorem editor_edge_endpoint_invariant
    (fresh : String) (gr : RawGraphDoc)
    (flowNodes : List FlowNode) (prev : List FlowEdge)
    (g g' : AgentGraphDocV1) (params : Connection) (surviving : List String)
    (hg : edgeEndpointsOk g) (hg' : edgeEndpointsOk g') :
    edgeEndpointsOk (migrateLegacyGraph fresh gr) ∧
    edgeEndpointsOk (onConnect flowNodes prev g params).2 ∧
    edgeEndpointsOk (removeNodesGraphUpdate surviving g') := by
  refine ⟨?_, ?_, ?_⟩
  · intro e he
    simp only [migrateLegacyGraph] at he ⊢
    rw [List.mem_filter] at he
    obtain ⟨-, hpred⟩ := he
    simpa [List.contains, Bool.and_eq_true] using hpred
  · simp only [onConnect]
    split_ifs with h1 h2 h3 h4
    · exact hg
    · exact hg
    · exact hg
    · exact hg
    · intro e he
      simp only at he ⊢
      rw [List.mem_filter] at he
      obtain ⟨-, hpred⟩ := he
      simpa [List.contains, Bool.and_eq_true] using hpred
  · intro e he
    simp only [removeNodesGraphUpdate] at he ⊢
    rw [List.mem_filter] at he
    obtain ⟨heg, hpred⟩ := he
    rw [Bool.and_eq_true] at hpred
    obtain ⟨h1, h2⟩ := hg' e heg
    exact ⟨mem_map_id_filter h1 hpred.1, mem_map_id_filter h2 hpred.2⟩

theorem editor_edge_endpoint_invariant_witness :
    edgeEndpointsOk
      (migrateLegacyGraph "uuid"
        { schema_version := "graph-v1"
          nodes := [RawNode.llm (some "n1") none none none none none none]
          edges := [{ id := "e1", source := "n1", target := "n2", label := none,
                      source_handle := none, target_handle := none }]
          viewport := ⟨0, 0, 1⟩
          metadata := "{}" }) := by
  have h := editor_edge_endpoint_invariant "uuid"
    { schema_version := "graph-v1"
      nodes := [RawNode.llm (some "n1") none none none none none none]
      edges := [{ id := "e1", source := "n1", target := "n2", label := none,
                  source_handle := none, target_handle := none }]
      viewport := ⟨0, 0, 1⟩
      metadata := "{}" }
    [] []
    { schema_version := "graph-v1", nodes := [], edges := [], viewport := ⟨0, 0, 1⟩,
      metadata := "{}" }
    { schema_version := "graph-v1", nodes := [], edges := [], viewport := ⟨0, 0, 1⟩,
      metadata := "{}" }
    ⟨"a", "b", none, none⟩ []
    (by intro e he; simp at he) (by intro e he; simp at he)
  exact h.1

/-- Claim C6: every connection `onConnect` accepts respects the per-variant
rules (`input` source-only, `output` target-only, `tool` feeds only `agent`,
`tool` never a target), and every connection request violating one of those
rules leaves the flow-edge set unchanged. -/
theorem onConnect_connection_rules
    (flowNodes : List FlowNode) (prev : List FlowEdge)
    (g : AgentGraphDocV1) (params : Connection) :
    ((nodeTypeOf flowNodes params.target = some NodeType.input →
        (onConnect flowNodes prev g params).1 = prev) ∧
      (nodeTypeOf flowNodes params.source = some NodeType.output →
        (onConnect flowNodes prev g params).1 = prev) ∧
      (nodeTypeOf flowNodes params.source = some NodeType.tool ∧
          nodeTypeOf flowNodes params.target ≠ some NodeType.agent →
        (onConnect flowNodes prev g params).1 = prev) ∧
      (nodeTypeOf flowNodes params.target = some NodeType.tool →
        (onConnect flowNodes prev g params).1 = prev)) ∧
    ((onConnect flowNodes prev g params).1 ≠ prev →
      nodeTypeOf flowNodes params.target ≠ some NodeType.input ∧
      nodeTypeOf flowNodes params.source ≠ some NodeType.output ∧
      (nodeTypeOf flowNodes params.source = some NodeType.tool →
        nodeTypeOf flowNodes params.target = some NodeType.agent) ∧
      nodeTypeOf flowNodes params.target ≠ some NodeType.tool) := by
  simp only [onConnect]
  split_ifs with h1 h2 h3 h4 <;>
    refine ⟨⟨?_, ?_, ?_, ?_⟩, ?_⟩ <;> tauto

theorem onConnect_connection_rules_witness :
    (onConnect [⟨"t1", some NodeType.tool⟩, ⟨"i1", some NodeType.input⟩]
        [] { schema_version := "graph-v1", nodes := [], edges := [],
             viewport := ⟨0, 0, 1⟩, metadata := "{}" }
        ⟨"t1", "i1", none, none⟩).1 = [] := by
  exact (onConnect_connection_rules
    [⟨"t1", some NodeType.tool⟩, ⟨"i1", some NodeType.input⟩] []
    { schema_version := "graph-v1", nodes := [], edges := [],
      viewport := ⟨0, 0, 1⟩, metadata := "{}" }
    ⟨"t1", "i1", none, none⟩).1.1 (by rfl)

/-- Claim C8: the output of `migrateLegacyGraph` only contains nodes of the
five tagged-union variants; legacy `llm`/`code_editor` nodes become `agent`
nodes with `system_prompt` as `instructions` and id and position preserved,
legacy `loop` nodes become `loop_group` nodes with condition defaulting to
`iteration < max_iterations` and `max_iterations` defaulting to 3, nodes
already of the five variants pass through unchanged, and any other node type
is dropped. -/
theorem migrateLegacyGraph_node_variants
    (fresh : String) (gr : RawGraphDoc)
    (i : String) (nm : Option String) (pos : GraphPosition)
    (sp mdl : Option String) (tls : Option (List String))
    (wr cond : Option String) (mi w h : Option Nat)
    (n : AgentGraphNode) (ty : String) :
    (∀ m ∈ (migrateLegacyGraph fresh gr).nodes,
        m.nodeType = NodeType.input ∨ m.nodeType = NodeType.agent ∨
        m.nodeType = NodeType.tool ∨ m.nodeType = NodeType.loop_group ∨
        m.nodeType = NodeType.output) ∧
    migrateNode fresh (RawNode.llm (some i) nm (some pos) sp mdl tls wr) =
      some (AgentGraphNode.agent i (some (nm.getD "Agent")) pos (some (sp.getD ""))
        (some (mdl.getD "{}")) (tls.getD []) [] [] none wr) ∧
    migrateNode fresh (RawNode.code_editor (some i) nm (some pos) sp mdl tls wr) =
      some (AgentGraphNode.agent i (some (nm.getD "Code editor")) pos (some (sp.getD ""))
        (some (mdl.getD "{}")) (tls.getD []) [] [] none wr) ∧
    migrateNode fresh (RawNode.loop (some i) nm (some pos) cond mi w h) =
      some (AgentGraphNode.loop_group i (some (nm.getD "Loop group")) pos
        (some (cond.getD "iteration < max_iterations")) (some (mi.getD 3))
        (some (w.getD 360)) (some (h.getD 240))) ∧
    migrateNode fresh (RawNode.typed n) = some n ∧
    migrateNode fresh (RawNode.other ty) = none := by
  refine ⟨?_, rfl, rfl, rfl, rfl, rfl⟩
  intro m _
  cases m <;> simp [AgentGraphNode.nodeType]

theorem migrateLegacyGraph_node_variants_witness :
    (AgentGraphNode.output "o1" none ⟨0, 0⟩).nodeType = NodeType.input ∨
    (AgentGraphNode.output "o1" none ⟨0, 0⟩).nodeType = NodeType.agent ∨
    (AgentGraphNode.output "o1" none ⟨0, 0⟩).nodeType = NodeType.tool ∨
    (AgentGraphNode.output "o1" none ⟨0, 0⟩).nodeType = NodeType.loop_group ∨
    (AgentGraphNode.output "o1" none ⟨0, 0⟩).nodeType = NodeType.output := by
  refine (migrateLegacyGraph_node_variants "uuid"
    { schema_version := "graph-v1"
      nodes := [RawNode.typed (AgentGraphNode.output "o1" none ⟨0, 0⟩)]
      edges := []
      viewport := ⟨0, 0, 1⟩
      metadata := "{}" }
    "i" none ⟨0, 0⟩ none none none none none none none none
    (AgentGraphNode.output "o1" none ⟨0, 0⟩) "weird").1
    (AgentGraphNode.output "o1" none ⟨0, 0⟩) ?_
  simp [migrateLegacyGraph, migrateNode]

/-! ## Editor validation gating (`saveRevision`, `runTest`)

The backend `validateSpec` endpoint is a parameter (an oracle from envelope
to response).  The observable effects of one invocation of `saveRevision` or
`runTest` are collected in `EditorOutcome`: which envelopes were sent to
`validateSpec`, whether a revision was created (`createAgentRevision`) and
with which spec, and whether a run was started (`createRun`) and against
which revision id. -/

structure ValidationIssue where
  code : String
  message : String
  node_id : Option String
  edge_id : Option String
deriving DecidableEq, Repr

structure SpecValidateResponse where
  ok : Bool
  issues : List ValidationIssue
deriving DecidableEq, Repr

structure AgentSpecEnvelope where
  schema_version : String
  graph : AgentGraphDocV1
  compiled : Option String
  metadata : String
deriving DecidableEq, Repr

/-- `buildEnvelope` (AgentEditorPage.tsx). -/
def buildEnvelope (g : AgentGraphDocV1) : AgentSpecEnvelope :=
  { schema_version := "graph-v1", graph := g, compiled := none, metadata := "{}" }

structure EditorOutcome where
  validateCalls : List AgentSpecEnvelope
  revisionCreated : Option AgentSpecEnvelope
  runStarted : Option String
deriving DecidableEq, Repr

/-- `saveRevision`: validate the current document's envelope; create a
revision only when `validation.ok` holds and the issue list is empty
(`if (!validation.ok || validation.issues.length > 0) return`). -/
def saveRevision (validateSpec : AgentSpecEnvelope → SpecValidateResponse)
    (g : AgentGraphDocV1) : EditorOutcome :=
  let env := buildEnvelope g
  let validation := validateSpec env
  if validation.ok = true ∧ validation.issues = [] then
    { validateCalls := [env], revisionCreated := some env, runStarted := none }
  else
    { validateCalls := [env], revisionCreated := none, runStarted := none }

/-- `runTest`: after the inputs-JSON parse guard, a revision id is resolved.
When no revision is selected the current document is validated and, on
success, saved as a new revision (id `newRevId`) and run; on failure nothing
happens.  When a revision is already selected (`selectedRevId`), the run is
created directly against that stored revision — no `validateSpec` call is
made on the current document. -/
def runTest (validateSpec : AgentSpecEnvelope → SpecValidateResponse)
    (selectedRevId : Option String) (newRevId : String) (inputsOk : Bool)
    (g : AgentGraphDocV1) : EditorOutcome :=
  if inputsOk = false then
    { validateCalls := [], revisionCreated := none, runStarted := none }
  else
    match selectedRevId with
    | some revId =>
        { validateCalls := [], revisionCreated := none, runStarted := some revId }
    | none =>
        let env := buildEnvelope g
        let validation := validateSpec env
        if validation.ok = true ∧ validation.issues = [] then
          { validateCalls := [env], revisionCreated := some env, runStarted := some newRevId }
        else
          { validateCalls := [env], revisionCreated := none, runStarted := none }

/-- An arbitrary concrete document for counterexamples. -/
def sampleDoc : AgentGraphDocV1 :=
  { schema_version := "graph-v1"
    nodes := [AgentGraphNode.input "in1" none ⟨0, 0⟩ none]
    edges := []
    viewport := ⟨0, 0, 1⟩
    metadata := "{}" }

/-- A validation oracle that rejects everything with a cycle issue. -/
def rejectAll : AgentSpecEnvelope → SpecValidateResponse :=
  fun _ => { ok := false, issues := [⟨"cycle", "cycle detected", none, none⟩] }

/-- Claim C7 counterexample: with a revision already selected, `runTest`
starts a run although no `validateSpec` call is made at all — even against an
oracle that would reject the current document.  So ``runTest starts a run
only if the immediately preceding validate call returned ok=true and an empty
issues list`` is false as stated. -/
theorem runTest_skips_validation_counterexample :
    (runTest rejectAll (some "rev-1") "new-rev" true sampleDoc).runStarted = some "rev-1" ∧
    (runTest rejectAll (some "rev-1") "new-rev" true sampleDoc).validateCalls = [] ∧
    (rejectAll (buildEnvelope sampleDoc)).ok = false := by
  refine ⟨rfl, rfl, rfl⟩

/-- Claim C7 (amended): `saveRevision` creates a revision exactly when its
validate call returned `ok=true` with an empty issues list, and never starts
a run; `runTest` with no selected revision validates the current document and
creates a revision and starts a run exactly under the same condition; but
`runTest` with an already-selected revision starts a run against that stored
revision without any validate call on the current document, creating no
revision. -/
theorem editor_validation_gating
    (validateSpec : AgentSpecEnvelope → SpecValidateResponse)
    (g : AgentGraphDocV1) (newRevId revId : String) :
    ((saveRevision validateSpec g).revisionCreated = some (buildEnvelope g) ↔
      (validateSpec (buildEnvelope g)).ok = true ∧
        (validateSpec (buildEnvelope g)).issues = []) ∧
    (saveRevision validateSpec g).validateCalls = [buildEnvelope g] ∧
    (saveRevision validateSpec g).runStarted = none ∧
    ((runTest validateSpec none newRevId true g).runStarted = some newRevId ↔
      (validateSpec (buildEnvelope g)).ok = true ∧
        (validateSpec (buildEnvelope g)).issues = []) ∧
    ((runTest validateSpec none newRevId true g).revisionCreated = some (buildEnvelope g) ↔
      (validateSpec (buildEnvelope g)).ok = true ∧
        (validateSpec (buildEnvelope g)).issues = []) ∧
    (runTest validateSpec none newRevId true g).validateCalls = [buildEnvelope g] ∧
    (runTest validateSpec (some revId) newRevId true g).revisionCreated = none ∧
    (runTest validateSpec (some revId) newRevId true g).validateCalls = [] ∧
    (runTest validateSpec (some revId) newRevId true g).runStarted = some revId := by
  by_cases hcond : (validateSpec (buildEnvelope g)).ok = true ∧
      (validateSpec (buildEnvelope g)).issues = [] <;>
    simp [saveRevision, runTest, hcond]

/-! ## Trace event consumers (`TraceViewer`, `LiveTracePage`)

`RunEvent` is `RunEventResponse` of lib/types.ts (the JSON payload is an
opaque string).  `traceViewerStep` is the `run_event` handler of
`TraceViewer.connectStream`: replace in place when an event with the same id
is already displayed, otherwise append and keep the last 2000 entries
(`slice(-2000)`).  `liveTraceStep` is `LiveTracePage`'s handler: append and
cap, no deduplication.  `liveTraceApply` adds the other state updates a
`LiveTracePage` session performs on its event list: `connect()` clears it,
and a resolving `loadBacklog` replaces it wholesale (`setEvents(evs)`).

Modelled from the spec: the backend feed itself is not under src/.  Per
§4.4–§4.5 the per-run log has strictly increasing `seq` and unique `id`s, a
backlog fetch returns persisted events in `seq` order, and one stream
connection delivers events in `seq` order, each persisted event at most
once.  These server-side guarantees appear below as `Pairwise EvRel`
hypotheses on the delivered lists. -/

structure RunEvent where
  id : String
  run_id : String
  created_at : String
  seq : Nat
  type : String
  payload_json : String
deriving DecidableEq, Repr

/-- JS `slice(-n)`: the last `n` entries (the whole list when shorter). -/
def sliceLast {α : Type} (n : Nat) (l : List α) : List α :=
  l.drop (l.length - n)

def traceViewerStep (prev : List RunEvent) (e : RunEvent) : List RunEvent :=
  match prev.findIdx? (fun ev => ev.id == e.id) with
  | some idx => prev.set idx e
  | none => sliceLast 2000 (prev ++ [e])

/-- `TraceViewer.connectStream` starts from `setTraceEvents([])`. -/
def traceViewerStream (deliveries : List RunEvent) : List RunEvent :=
  deliveries.foldl traceViewerStep []

def liveTraceStep (prev : List RunEvent) (e : RunEvent) : List RunEvent :=
  sliceLast 2000 (prev ++ [e])

inductive LiveAction where
  | connectClick
  | backlogResolve (evs : List RunEvent)
  | streamEvent (e : RunEvent)

def liveTraceApply (st : List RunEvent) : LiveAction → List RunEvent
  | .connectClick => []
  | .backlogResolve evs => evs
  | .streamEvent e => liveTraceStep st e

def liveTraceRun (actions : List LiveAction) : List RunEvent :=
  actions.foldl liveTraceApply []

/-- Delivery-order relation the spec-modelled feed guarantees between an
earlier and a later event of one run: non-decreasing `seq`, distinct `id`s. -/
def EvRel (a b : RunEvent) : Prop :=
  a.seq ≤ b.seq ∧ a.id ≠ b.id

instance : DecidableRel EvRel :=
  fun a b => inferInstanceAs (Decidable (a.seq ≤ b.seq ∧ a.id ≠ b.id))

theorem pairwise_evrel_split {L : List RunEvent} (h : L.Pairwise EvRel) :
    L.Pairwise (fun a b => a.seq ≤ b.seq) ∧ L.Pairwise (fun a b => a.id ≠ b.id) :=
  ⟨h.imp (fun hr => hr.1), h.imp (fun hr => hr.2)⟩

theorem sliceLast_sublist {α : Type} (n : Nat) (l : List α) : (sliceLast n l).Sublist l :=
  List.drop_sublist _ _

theorem sliceLast_suffix {α : Type} (n : Nat) (l : List α) : (sliceLast n l).IsSuffix l :=
  List.drop_suffix _ _

theorem suffix_append_right {α : Type} {l₁ l₂ : List α} (t : List α)
    (h : l₁.IsSuffix l₂) : (l₁ ++ t).IsSuffix (l₂ ++ t) := by
  obtain ⟨u, rfl⟩ := h
  exact ⟨u, (List.append_assoc u l₁ t).symm⟩

/-- The `LiveTracePage` append-and-cap fold yields a suffix of `acc ++ S`. -/
theorem foldl_liveTraceStep_suffix (S : List RunEvent) (acc : List RunEvent) :
    (S.foldl liveTraceStep acc).IsSuffix (acc ++ S) := by
  induction S generalizing acc with
  | nil => simp
  | cons e S ih =>
    have h1 : (S.foldl liveTraceStep (liveTraceStep acc e)).IsSuffix
        (liveTraceStep acc e ++ S) := ih _
    have h2 : (liveTraceStep acc e ++ S).IsSuffix ((acc ++ [e]) ++ S) :=
      suffix_append_right S (sliceLast_suffix 2000 (acc ++ [e]))
    have h3 : (acc ++ [e]) ++ S = acc ++ e :: S := by simp
    rw [List.foldl_cons]
    exact h3 ▸ h1.trans h2

theorem findIdx_id_none {l : List RunEvent} {e : RunEvent}
    (h : ∀ x ∈ l, x.id ≠ e.id) :
    l.findIdx? (fun ev => ev.id == e.id) = none := by
  induction l with
  | nil => rfl
  | cons x xs ih =>
    have hx : (x.id == e.id) = false := by
      simpa using h x (by simp)
    simp [List.findIdx?_cons, hx, ih (fun y hy => h y (by simp [hy]))]

/-- Invariant of the deduplicating `TraceViewer` fold: if the accumulator,
the remaining deliveries and all cross pairs satisfy `EvRel`, so does the
final displayed list. -/
theorem traceViewer_fold_pairwise (S : List RunEvent) (acc : List RunEvent)
    (hacc : acc.Pairwise EvRel) (hS : S.Pairwise EvRel)
    (hcross : ∀ x ∈ acc, ∀ y ∈ S, EvRel x y) :
    (S.foldl traceViewerStep acc).Pairwise EvRel := by
  induction S generalizing acc with
  | nil => exact hacc
  | cons e S ih =>
    rw [List.foldl_cons]
    have hids : ∀ x ∈ acc, x.id ≠ e.id :=
      fun x hx => (hcross x hx e (by simp)).2
    have hstep : traceViewerStep acc e = sliceLast 2000 (acc ++ [e]) := by
      rw [traceViewerStep, findIdx_id_none hids]
    rw [hstep]
    rcases List.pairwise_cons.mp hS with ⟨heS, hStail⟩
    apply ih
    · refine List.Pairwise.sublist (sliceLast_sublist 2000 (acc ++ [e])) ?_
      rw [List.pairwise_append]
      refine ⟨hacc, List.pairwise_singleton _ _, ?_⟩
      intro x hx y hy
      rw [List.mem_singleton] at hy
      rw [hy]
      exact hcross x hx e (by simp)
    · exact hStail
    · intro x hx y hy
      have hx' : x ∈ acc ++ [e] := (sliceLast_sublist 2000 (acc ++ [e])).subset hx
      rw [List.mem_append, List.mem_singleton] at hx'
      rcases hx' with hxa | rfl
      · exact hcross x hxa y (by simp [hy])
      · exact heS y hy

/-- Two persisted events of one run, used to exhibit the backlog/stream
overlap race. -/
def overlapEv1 : RunEvent := ⟨"a", "r", "t0", 1, "run.started", "x"⟩

def overlapEv2 : RunEvent := ⟨"b", "r", "t1", 2, "step.started", "y"⟩

/-- Claim C1 counterexample: the claim fails for `LiveTracePage` at a
concrete realizable interleaving.  The backlog fetch is issued first, then
`connect()` attaches the stream; the fetch response `[ev1, ev2]` lands after
the attach, and the stream deliveries of the same two events (pushed on a
separate SSE connection, which the spec does not order against the fetch)
land after it.  Both paths individually obey the spec's per-path guarantee
(`Pairwise EvRel`: `seq`-ordered, each event once), yet the displayed list
`[ev1, ev2, ev1, ev2]` repeats both ids and breaks non-decreasing `seq`
order, because `LiveTracePage` appends stream events without
deduplication. -/
theorem liveTrace_overlap_counterexample :
    [overlapEv1, overlapEv2].Pairwise EvRel ∧
    ¬ ((liveTraceRun [LiveAction.connectClick,
          LiveAction.backlogResolve [overlapEv1, overlapEv2],
          LiveAction.streamEvent overlapEv1,
          LiveAction.streamEvent overlapEv2]).Pairwise
        (fun a b => a.id ≠ b.id)) ∧
    ¬ ((liveTraceRun [LiveAction.connectClick,
          LiveAction.backlogResolve [overlapEv1, overlapEv2],
          LiveAction.streamEvent overlapEv1,
          LiveAction.streamEvent overlapEv2]).Pairwise
        (fun a b => a.seq ≤ b.seq)) := by
  decide

/-- Claim C1 (amended): `TraceViewer`'s stream display over one connection's
feed always has unique ids and non-decreasing `seq` (conjunct 1), and
`LiveTracePage`'s display does whenever the stream events appended after the
last backlog replacement do not overlap it — in particular whenever the
backlog resolved before `connect()`, which discards it (conjunct 2), and in
the late-resolution interleaving provided the post-resolution stream events
`S2` carry larger `seq` and fresh ids relative to the backlog `B`, stated by
`hBS2` (conjunct 3).  When `hBS2` fails the invariant itself fails — the
claim's counterexample — so this is the strongest true form for the
non-deduplicating `LiveTracePage`. -/
theorem stream_display_no_dup_ordered
    (S B S1 S2 : List RunEvent)
    (hS : S.Pairwise EvRel) (hB : B.Pairwise EvRel)
    (hS12 : (S1 ++ S2).Pairwise EvRel)
    (hBS2 : ∀ b ∈ B, ∀ e ∈ S2, EvRel b e) :
    ((traceViewerStream S).Pairwise (fun a b => a.seq ≤ b.seq) ∧
      (traceViewerStream S).Pairwise (fun a b => a.id ≠ b.id)) ∧
    ((liveTraceRun ([LiveAction.backlogResolve B, LiveAction.connectClick] ++
          S.map LiveAction.streamEvent)).Pairwise (fun a b => a.seq ≤ b.seq) ∧
      (liveTraceRun ([LiveAction.backlogResolve B, LiveAction.connectClick] ++
          S.map LiveAction.streamEvent)).Pairwise (fun a b => a.id ≠ b.id)) ∧
    ((liveTraceRun (LiveAction.connectClick :: (S1.map LiveAction.streamEvent ++
          [LiveAction.backlogResolve B] ++
          S2.map LiveAction.streamEvent))).Pairwise (fun a b => a.seq ≤ b.seq) ∧
      (liveTraceRun (LiveAction.connectClick :: (S1.map LiveAction.streamEvent ++
          [LiveAction.backlogResolve B] ++
          S2.map LiveAction.streamEvent))).Pairwise (fun a b => a.id ≠ b.id)) := by
  refine ⟨?_, ?_, ?_⟩
  · exact pairwise_evrel_split
      (traceViewer_fold_pairwise S [] (by simp) hS (by simp))
  · apply pairwise_evrel_split
    have hrun : liveTraceRun ([LiveAction.backlogResolve B, LiveAction.connectClick] ++
        S.map LiveAction.streamEvent) = S.foldl liveTraceStep [] := by
      rw [liveTraceRun, List.foldl_append, List.foldl_map]
      rfl
    rw [hrun]
    have hsuf : (S.foldl liveTraceStep []).IsSuffix S := by
      have := foldl_liveTraceStep_suffix S []
      simpa using this
    exact List.Pairwise.sublist hsuf.sublist hS
  · apply pairwise_evrel_split
    have hrun : liveTraceRun (LiveAction.connectClick :: (S1.map LiveAction.streamEvent ++
        [LiveAction.backlogResolve B] ++ S2.map LiveAction.streamEvent)) =
        S2.foldl liveTraceStep B := by
      rw [liveTraceRun, List.foldl_cons]
      show (S1.map LiveAction.streamEvent ++ [LiveAction.backlogResolve B] ++
        S2.map LiveAction.streamEvent).foldl liveTraceApply [] = _
      rw [List.foldl_append, List.foldl_append, List.foldl_map]
      rfl
    rw [hrun]
    have hsuf : (S2.foldl liveTraceStep B).IsSuffix (B ++ S2) :=
      foldl_liveTraceStep_suffix S2 B
    refine List.Pairwise.sublist hsuf.sublist ?_
    rw [List.pairwise_append]
    have hS2 : S2.Pairwise EvRel :=
      List.Pairwise.sublist (List.sublist_append_right S1 S2) hS12
    exact ⟨hB, hS2, hBS2⟩

theorem stream_display_no_dup_ordered_witness :
    ((traceViewerStream [⟨"a", "r", "t0", 1, "run.started", "x"⟩,
        ⟨"b", "r", "t1", 2, "run.completed", "y"⟩]).Pairwise
      (fun a b => a.seq ≤ b.seq)) := by
  have h := stream_display_no_dup_ordered
    [⟨"a", "r", "t0", 1, "run.started", "x"⟩, ⟨"b", "r", "t1", 2, "run.completed", "y"⟩]
    [⟨"a", "r", "t0", 1, "run.started", "x"⟩]
    []
    [⟨"b", "r", "t1", 2, "run.completed", "y"⟩]
    (by decide) (by decide) (by decide) (by decide)
  exact h.1.1

/-! ## Run lifecycle and event log (backend service)

The backend run/event service is implemented in Python and is not among the
available sources (only its HTTP client, response types and README are).
The two definitions below are therefore modelled from the spec. -/

/-- What the engine passes when recording one event (everything except the
store-assigned `seq`). -/
structure EventDraft where
  id : String
  type : String
  payload_json : String
  created_at : String
deriving DecidableEq, Repr

/-- Modelled from the spec: the single append function of §4.4 through which
every event is recorded, which «atomically allocates the next `seq` for that
run» — a per-run monotonic counter, here the current log length plus one —
and persists the event before the engine proceeds. -/
def appendRunEvent (runId : String) (log : List RunEvent) (d : EventDraft) : List RunEvent :=
  log ++ [{ id := d.id, run_id := runId, created_at := d.created_at,
            seq := log.length + 1, type := d.type, payload_json := d.payload_json }]

/-- The event log of a run that recorded the drafts `ds` in order, starting
from an empty log. -/
def runEventLog (runId : String) (ds : List EventDraft) : List RunEvent :=
  ds.foldl (appendRunEvent runId) []

theorem runEventLog_seq_aux (runId : String) (ds : List EventDraft)
    (acc : List RunEvent) :
    ((ds.foldl (appendRunEvent runId) acc).map RunEvent.seq) =
      acc.map RunEvent.seq ++ List.range' (acc.length + 1) ds.length := by
  induction ds generalizing acc with
  | nil => simp
  | cons d ds ih =>
    rw [List.foldl_cons, ih]
    simp [appendRunEvent, List.range'_succ]

/-- Claim C2: for every run, the recorded `seq` values are exactly the
integers `1..k` (`List.range' 1 k`), strictly increasing, duplicate- and
gap-free, where `k` is the number of events emitted; every `seq` is a
positive integer. -/
theorem runEventLog_seq_contiguous (runId : String) (ds : List EventDraft) :
    (runEventLog runId ds).map RunEvent.seq = List.range' 1 ds.length ∧
    (runEventLog runId ds).length = ds.length ∧
    ((runEventLog runId ds).map RunEvent.seq).Pairwise (· < ·) ∧
    ∀ e ∈ runEventLog runId ds, 0 < e.seq := by
  have hmap : (runEventLog runId ds).map RunEvent.seq = List.range' 1 ds.length := by
    have := runEventLog_seq_aux runId ds []
    simpa [runEventLog] using this
  refine ⟨hmap, ?_, ?_, ?_⟩
  · have := congrArg List.length hmap
    simpa using this
  · rw [hmap]
    exact List.pairwise_lt_range' 1 ds.length
  · intro e he
    have hseq : e.seq ∈ List.range' 1 ds.length := by
      rw [← hmap]
      exact List.mem_map.mpr ⟨e, he, rfl⟩
    have := (List.mem_range'_1.mp hseq).1
    omega

theorem runEventLog_seq_contiguous_witness :
    0 < (RunEvent.mk "a" "r" "t0" 1 "run.started" "x").seq := by
  refine (runEventLog_seq_contiguous "r"
    [⟨"a", "run.started", "x", "t0"⟩]).2.2.2
    (RunEvent.mk "a" "r" "t0" 1 "run.started" "x") ?_
  simp [runEventLog, appendRunEvent]

/-! ### Cancellation -/

inductive RunStatus where
  | queued
  | running
  | completed
  | failed
  | cancelled
deriving DecidableEq, Repr

def RunStatus.isTerminal : RunStatus → Bool
  | .completed => true
  | .failed => true
  | .cancelled => true
  | _ => false

structure RunRecord where
  id : String
  status : RunStatus
  cancel_requested : Bool
  error : Option String
  final_output : Option String
  events : List RunEvent
deriving DecidableEq, Repr

/-- Modelled from the spec: `cancelRun` of §4.4/§6 — «`cancel(run_id)` sets
`cancel_requested=true`; … canceling an already-terminal run is a no-op
returning the existing terminal status (idempotent)» (§7 CancellationRace).
Returns the updated record and the status reported back to the caller. -/
def cancelRun (r : RunRecord) : RunRecord × RunStatus :=
  if r.status.isTerminal then (r, r.status)
  else ({ r with cancel_requested := true }, r.status)

/-- Claim C4: cancelling a run already in a terminal state is a no-op: it
returns the existing terminal status, leaves the run record (including its
event log) unchanged, and appends no event. -/
theorem cancelRun_terminal_noop (r : RunRecord)
    (h : r.status.isTerminal = true) :
    cancelRun r = (r, r.status) ∧
    (cancelRun r).1.events = r.events ∧
    (cancelRun r).2 = r.status := by
  rw [cancelRun, if_pos h]
  exact ⟨rfl, rfl, rfl⟩

theorem cancelRun_terminal_noop_witness :
    cancelRun ⟨"r1", RunStatus.completed, false, none, some "out", []⟩ =
      (⟨"r1", RunStatus.completed, false, none, some "out", []⟩, RunStatus.completed) := by
  exact (cancelRun_terminal_noop
    ⟨"r1", RunStatus.completed, false, none, some "out", []⟩ rfl).1

/-! ## Graph compiler (backend `/v1/spec/compile`)

The compiler behind the client's `compileSpec` endpoint is Python and not
among the available sources.  Modelled from the spec (§4.2): build a
dependency graph from the edges; contract each `loop_group`'s interior
(membership via a node's `parent` group id) to a single vertex carrying a
compiled inner plan; topologically sort the contracted graph, ties broken by
node-declaration order (Kahn's algorithm always picking the first ready
vertex in declaration order); resolve `tool→agent` edges into each agent
step's available-tool list.  Groups are top-level in the editor (only plain
nodes acquire a `parent`), so inner plans need no further contraction. -/

structure CompileNode where
  id : String
  kind : NodeType
  parent : Option String
  condition : String
  max_iterations : Nat
  tool_name : String
deriving DecidableEq, Repr

structure CompileDoc where
  nodes : List CompileNode
  edges : List (String × String)
deriving DecidableEq, Repr

inductive PlanStep where
  | mk (node_id : String) (deps : List String) (tools : List String)
      (condition : Option String) (max_iterations : Option Nat)
      (inner : List PlanStep)
deriving Repr

/-- The contracted-graph representative of a node: its owning `loop_group`
when it has one, itself otherwise. -/
def repOf (d : CompileDoc) (n : CompileNode) : String :=
  match n.parent with
  | some p =>
      if d.nodes.any (fun m => m.id == p && m.kind == NodeType.loop_group) then p
      else n.id
  | none => n.id

def repOfId (d : CompileDoc) (i : String) : String :=
  match d.nodes.find? (fun n => n.id == i) with
  | some n => repOf d n
  | none => i

/-- Vertices of the contracted graph, in declaration order. -/
def topVertices (d : CompileDoc) : List String :=
  (d.nodes.filter (fun n => repOf d n == n.id)).map (fun n => n.id)

/-- Edges of the contracted graph; contraction drops interior self-loops. -/
def contractedEdges (d : CompileDoc) : List (String × String) :=
  (d.edges.map (fun e => (repOfId d e.1, repOfId d e.2))).filter
    (fun e => !(e.1 == e.2))

/-- The first vertex in declaration order that is not placed yet and whose
predecessors are all placed — the deterministic tie-break of §4.2. -/
def pickReady (done : List String) (vertices : List String)
    (edges : List (String × String)) : Option String :=
  vertices.find? (fun v => !done.contains v &&
    (edges.filter (fun e => e.2 == v)).all (fun e => done.contains e.1))

/-- Kahn's algorithm with one iteration per vertex; a step with no ready
vertex means a cycle survived contraction — the defensive `CompileError`. -/
def topoGo (vertices : List String) (edges : List (String × String)) :
    Nat → List String → Except String (List String)
  | 0, acc => Except.ok acc
  | fuel + 1, acc =>
      match pickReady acc vertices edges with
      | none => Except.error "CompileError: cycle outside loop_group"
      | some v => topoGo vertices edges fuel (acc ++ [v])

/-- Direct predecessors of a contracted vertex. -/
def depsFor (d : CompileDoc) (v : String) : List String :=
  ((contractedEdges d).filter (fun e => e.2 == v)).map Prod.fst

/-- Tool names bound to an agent via `tool→agent` edges. -/
def toolsFor (d : CompileDoc) (a : String) : List String :=
  (d.edges.filter (fun e => e.2 == a)).filterMap (fun e =>
    match d.nodes.find? (fun n => n.id == e.1 && n.kind == NodeType.tool) with
    | some n => some n.tool_name
    | none => none)

/-- The recursively compiled inner plan of a `loop_group`: its members in
topological order of the member subgraph. -/
def innerPlan (d : CompileDoc) (gid : String) : Except String (List PlanStep) :=
  let members := d.nodes.filter (fun n => n.parent == some gid)
  let memberIds := members.map (fun n => n.id)
  let memberEdges := d.edges.filter
    (fun e => memberIds.contains e.1 && memberIds.contains e.2)
  (topoGo memberIds memberEdges memberIds.length []).map (fun order =>
    order.map (fun v => PlanStep.mk v
      ((memberEdges.filter (fun e => e.2 == v)).map Prod.fst)
      (toolsFor d v) none none []))

/-- Modelled from the spec: `compile` (§4.2, §6) — a pure function of the
document producing the ordered step list, or a fatal `CompileError`. -/
def compile (d : CompileDoc) : Except String (List PlanStep) := do
  let verts := topVertices d
  let order ← topoGo verts (contractedEdges d) verts.length []
  order.mapM (fun v =>
    match d.nodes.find? (fun n => n.id == v) with
    | none => Except.error "CompileError: unknown node"
    | some n =>
        if n.kind == NodeType.loop_group then
          (innerPlan d v).map (fun inner =>
            PlanStep.mk v (depsFor d v) [] (some n.condition)
              (some n.max_iterations) inner)
        else
          Except.ok (PlanStep.mk v (depsFor d v) (toolsFor d v) none none []))

/-- A concrete `Input → Agent → Output` document with one bound tool, used to
exercise `compile`. -/
def demoCompileDoc : CompileDoc :=
  { nodes :=
      [⟨"in1", NodeType.input, none, "", 0, ""⟩,
       ⟨"tool1", NodeType.tool, none, "", 0, "search"⟩,
       ⟨"agent1", NodeType.agent, none, "", 0, ""⟩,
       ⟨"out1", NodeType.output, none, "", 0, ""⟩]
    edges := [("in1", "agent1"), ("tool1", "agent1"), ("agent1", "out1")] }

example :
    compile demoCompileDoc = Except.ok
      [PlanStep.mk "in1" [] [] none none [],
       PlanStep.mk "tool1" [] [] none none [],
       PlanStep.mk "agent1" ["in1", "tool1"] ["search"] none none [],
       PlanStep.mk "out1" ["agent1"] [] none none []] := by
  rfl

/-- Claim C3: `compile` is deterministic — any two invocations on the same
(structurally identical) document yield structurally identical plans.  In
this pure model of the backend compiler the property is definitional. -/
theorem compile_deterministic (d₁ d₂ : CompileDoc) (h : d₁ = d₂) :
    compile d₁ = compile d₂ := by
  rw [h]

theorem compile_deterministic_witness :
    compile demoCompileDoc = compile demoCompileDoc :=
  compile_deterministic demoCompileDoc demoCompileDoc rfl

end AgentStudio
